import Mathlib

/-!
Verification of the Stackmaker simulation core (`src/stackmaker/src/world.rs`,
`src/stackmaker/src/runner.rs`).

The Rust code is shallowly embedded: machine integers become `Nat` (with
explicit `% 2 ^ 64` where u64 arithmetic wraps — release-mode semantics — and
well-formedness bounds where values are typed u8/u32/u64), `Vec<Block>` stacks
become `List Block` with the *last* element as the top (matching `Vec::push`
and `last_mut`), the `HashMap` of chunks becomes a lookup function for the
runtime semantics and an iteration sequence (association list) for the codec,
and fallible code (a Rust panic or a failed decode) returns `Option`.
-/

namespace Stackmaker

/-! ### Binary codec primitives (`impl SaveLoad for u8/u32/u64/usize`) -/

/-- Big-endian byte encoding of `v` using `n` bytes, as `u32::to_be_bytes` /
`u64::to_be_bytes` produce (high byte first).  For `v < 256 ^ n` this is the
exact byte image; larger values are truncated to their low `n` bytes, which is
how `usize as u64` behaves. -/
def beBytes : Nat → Nat → List Nat
  | 0, _ => []
  | n + 1, v => (v / 256 ^ n) % 256 :: beBytes n v

/-- Big-endian value of a byte list, as `from_be_bytes` computes it. -/
def beValue (l : List Nat) : Nat := l.foldl (fun a b => a * 256 + b) 0

/-- Reading `n` bytes from the input stream (`src.next()?` done `n` times,
then `from_be_bytes`); fails when the stream is exhausted early. -/
def loadBytes (n : Nat) (src : List Nat) : Option (Nat × List Nat) :=
  if n ≤ src.length then some (beValue (src.take n), src.drop n) else none

theorem beBytes_length (n v : Nat) : (beBytes n v).length = n := by
  induction n generalizing v with
  | zero => rfl
  | succ n ih => simp [beBytes, ih]

theorem beValue_acc (l : List Nat) (a : Nat) :
    l.foldl (fun x y => x * 256 + y) a = a * 256 ^ l.length + beValue l := by
  induction l generalizing a with
  | nil => simp [beValue]
  | cons c l ih =>
    have hb : beValue (c :: l) = c * 256 ^ l.length + beValue l := by
      show (c :: l).foldl (fun x y => x * 256 + y) 0 = _
      simp only [List.foldl_cons, Nat.zero_mul, Nat.zero_add]
      exact ih c
    simp only [List.foldl_cons, List.length_cons]
    rw [ih (a * 256 + c), hb]
    ring

theorem beValue_cons (b : Nat) (l : List Nat) :
    beValue (b :: l) = b * 256 ^ l.length + beValue l := by
  have h0 : beValue (b :: l) = l.foldl (fun x y => x * 256 + y) b := by
    simp [beValue]
  rw [h0, beValue_acc l b]

theorem beValue_beBytes (n v : Nat) : beValue (beBytes n v) = v % 256 ^ n := by
  induction n generalizing v with
  | zero => simp [beBytes, beValue, Nat.mod_one]
  | succ n ih =>
    rw [beBytes, beValue_cons, beBytes_length, ih]
    have h256 : (0:Nat) < 256 ^ n := Nat.pos_pow_of_pos n (by norm_num)
    have h1 : v % 256 ^ (n + 1) = v % 256 ^ n + 256 ^ n * (v / 256 ^ n % 256) := by
      rw [pow_succ, Nat.mod_mul]
    have h2 : v / 256 ^ n % 256 * 256 ^ n = 256 ^ n * (v / 256 ^ n % 256) :=
      Nat.mul_comm _ _
    omega

theorem loadBytes_beBytes (n v : Nat) (r : List Nat) :
    loadBytes n (beBytes n v ++ r) = some (v % 256 ^ n, r) := by
  have hl : (beBytes n v).length = n := beBytes_length n v
  simp [loadBytes, List.take_append_of_le_length, List.drop_append_of_le_length,
    hl, List.take_of_length_le, List.drop_of_length_le, beValue_beBytes,
    List.take_left', List.drop_left']

/-! ### Blocks (`enum Block` in world.rs) -/

/-- `enum Block`: field order and types as declared in world.rs.
u32 fields and u8 direction bytes are carried as `Nat` with bounds in
`wfBlock`. -/
inductive Block where
  | color (c : Nat)
  | char (c : Nat)
  | delay (t : Nat) (d : Nat)
  | storage (v : Nat) (m : Nat) (d : Nat)
  | gate (opn : Bool) (d : Nat)
  | splitter (d : Nat)
  | move (d : Nat)
  | swap (d : Nat)
  deriving DecidableEq, Repr

/-- Field bounds coming from the Rust types (u32 values, u8 bytes).  For
`Gate` the direction byte must also have bit 0 clear: the save format packs
the open flag into bit 0 of that byte, so an odd direction byte cannot
round-trip.  All six legal direction codes only use the top 3 bits, so real
directions always satisfy this. -/
def wfBlock : Block → Bool
  | .color c => c < 2 ^ 32
  | .char c => c < 2 ^ 32
  | .delay t d => t < 2 ^ 32 && d < 256
  | .storage v m d => v < 2 ^ 32 && m < 256 && d < 256
  | .gate _ d => d < 256 && d % 2 == 0
  | .splitter d => d < 256
  | .move d => d < 256
  | .swap d => d < 256

/-- `impl SaveLoad for Block`, `fn save`: one ASCII tag byte, then the fields
in declaration order; `Gate` packs the open flag into bit 0 of the direction
byte (`if *open { *dir | 0b1 } else { *dir }`). -/
def saveBlock : Block → List Nat
  | .color c => 99 :: beBytes 4 c
  | .char c => 67 :: beBytes 4 c
  | .delay t d => 100 :: (beBytes 4 t ++ [d])
  | .storage v m d => 115 :: (beBytes 4 v ++ [m, d])
  | .gate opn d => [103, if opn then d ||| 1 else d]
  | .splitter d => [71, d]
  | .move d => [109, d]
  | .swap d => [77, d]

/-- `impl SaveLoad for Block`, `fn load`: dispatch on the tag byte; for `g`
bit 0 of the next byte is the open flag and is cleared out of the direction
(`as_one ^ 1`); an unrecognized tag aborts (`None`). -/
def loadBlock (src : List Nat) : Option (Block × List Nat) :=
  match src with
  | [] => none
  | tag :: src =>
    if tag = 99 then do
      let (c, src) ← loadBytes 4 src
      some (.color c, src)
    else if tag = 67 then do
      let (c, src) ← loadBytes 4 src
      some (.char c, src)
    else if tag = 100 then do
      let (t, src) ← loadBytes 4 src
      match src with
      | [] => none
      | d :: src => some (.delay t d, src)
    else if tag = 115 then do
      let (v, src) ← loadBytes 4 src
      match src with
      | [] => none
      | m :: d :: src => some (.storage v m d, src)
      | _ => none
    else if tag = 103 then
      match src with
      | [] => none
      | asOne :: src =>
        if asOne &&& 1 = 1 then some (.gate true (asOne ^^^ 1), src)
        else some (.gate false asOne, src)
    else if tag = 71 then
      match src with
      | [] => none
      | d :: src => some (.splitter d, src)
    else if tag = 109 then
      match src with
      | [] => none
      | d :: src => some (.move d, src)
    else if tag = 77 then
      match src with
      | [] => none
      | d :: src => some (.swap d, src)
    else none

set_option maxRecDepth 4096 in
theorem gate_byte_roundtrip :
    ∀ d : Nat, d < 256 → d % 2 = 0 → (d ||| 1) % 2 = 1 ∧ (d ||| 1) ^^^ 1 = d := by
  decide

theorem loadBlock_saveBlock (b : Block) (r : List Nat) (h : wfBlock b = true) :
    loadBlock (saveBlock b ++ r) = some (b, r) := by
  cases b with
  | color c =>
    simp only [wfBlock, decide_eq_true_eq] at h
    norm_num at h
    simp [saveBlock, loadBlock, loadBytes_beBytes, Nat.mod_eq_of_lt h]
  | char c =>
    simp only [wfBlock, decide_eq_true_eq] at h
    norm_num at h
    simp [saveBlock, loadBlock, loadBytes_beBytes, Nat.mod_eq_of_lt h]
  | delay t d =>
    simp only [wfBlock, Bool.and_eq_true, decide_eq_true_eq] at h
    obtain ⟨h1, h2⟩ := h
    norm_num at h1
    simp [saveBlock, loadBlock, loadBytes_beBytes, Nat.mod_eq_of_lt h1]
  | storage v m d =>
    simp only [wfBlock, Bool.and_eq_true, decide_eq_true_eq] at h
    obtain ⟨⟨h1, h2⟩, h3⟩ := h
    norm_num at h1
    simp [saveBlock, loadBlock, loadBytes_beBytes, Nat.mod_eq_of_lt h1]
  | gate opn d =>
    simp only [wfBlock, Bool.and_eq_true, decide_eq_true_eq, beq_iff_eq] at h
    obtain ⟨h1, h2⟩ := gate_byte_roundtrip d h.1 h.2
    cases opn with
    | false => simp [saveBlock, loadBlock, h.2]
    | true => simp [saveBlock, loadBlock, h1, h2]
  | splitter d => simp [saveBlock, loadBlock]
  | move d => simp [saveBlock, loadBlock]
  | swap d => simp [saveBlock, loadBlock]

/-! ### Sequence codec (`impl SaveLoad for Vec<C>` / `VecDeque<C>` / `usize`) -/

/-- `Vec::save` / `VecDeque::save`: an 8-byte big-endian length (`usize` saved
`as u64`) followed by the encoded elements in order. -/
def saveList {α : Type} (sv : α → List Nat) (l : List α) : List Nat :=
  beBytes 8 l.length ++ (l.map sv).flatten

/-- The element-reading loop of `Vec::load` / `VecDeque::load`: read exactly
`n` elements, aborting on the first failure. -/
def loadCount {α : Type} (ld : List Nat → Option (α × List Nat)) :
    Nat → List Nat → Option (List α × List Nat)
  | 0, src => some ([], src)
  | n + 1, src => do
    let (a, src1) ← ld src
    let (rest, src2) ← loadCount ld n src1
    some (a :: rest, src2)

/-- `Vec::load` / `VecDeque::load`: read the 8-byte length, then that many
elements. -/
def loadList {α : Type} (ld : List Nat → Option (α × List Nat))
    (src : List Nat) : Option (List α × List Nat) := do
  let (n, src1) ← loadBytes 8 src
  loadCount ld n src1

theorem loadCount_save {α : Type} (ld : List Nat → Option (α × List Nat))
    (sv : α → List Nat) (l : List α) (r : List Nat)
    (h : ∀ a ∈ l, ∀ r', ld (sv a ++ r') = some (a, r')) :
    loadCount ld l.length ((l.map sv).flatten ++ r) = some (l, r) := by
  induction l generalizing r with
  | nil => simp [loadCount]
  | cons a l ih =>
    have ha := h a (List.mem_cons_self a l) ((l.map sv).flatten ++ r)
    have hl : ∀ b ∈ l, ∀ r', ld (sv b ++ r') = some (b, r') :=
      fun b hb => h b (List.mem_cons_of_mem a hb)
    simp [loadCount, List.append_assoc, ha, ih r hl]

theorem loadList_save {α : Type} (ld : List Nat → Option (α × List Nat))
    (sv : α → List Nat) (l : List α) (r : List Nat)
    (h : ∀ a ∈ l, ∀ r', ld (sv a ++ r') = some (a, r'))
    (hlen : l.length < 2 ^ 64) :
    loadList ld (saveList sv l ++ r) = some (l, r) := by
  have h64 : l.length % 18446744073709551616 = l.length :=
    Nat.mod_eq_of_lt (by norm_num at hlen; exact hlen)
  simp [loadList, saveList, List.append_assoc, loadBytes_beBytes, h64,
    loadCount_save ld sv l r h]

/-! ### Chunks, layers, signal queue: codec side -/

/-- A pending signal `(signal, dir (3b) + layer (5b), target_chunk,
target_pos)` as queued in `World::signals_queue`. -/
abbrev Sig := Nat × Nat × Nat × Nat

/-- A chunk for the codec: the fixed `[Vec<Block>; 256]` array as a list of
256 stacks (bottom-to-top order inside each stack). -/
abbrev ChunkS := List (List Block)

/-- A layer for the codec: the iteration sequence of the `HashMap<u64,
[Vec<Block>; 256]>`, i.e. the key/chunk pairs in the (arbitrary) order
`Layer::save` visits them. -/
abbrev LayerS := List (Nat × ChunkS)

/-- The signal queue as serialized: `VecDeque<Vec<(u32, u8, u64, u8)>>`. -/
abbrev QueueS := List (List Sig)

def wfStack (st : List Block) : Bool := st.length < 2 ^ 64 && st.all wfBlock

def wfChunkS (c : ChunkS) : Bool := c.length == 256 && c.all wfStack

def wfLayerS (l : LayerS) : Bool :=
  l.length < 2 ^ 64 && l.all fun p => p.1 < 2 ^ 64 && wfChunkS p.2

def wfSig (s : Sig) : Bool :=
  s.1 < 2 ^ 32 && s.2.1 < 256 && s.2.2.1 < 2 ^ 64 && s.2.2.2 < 256

def wfQueue (q : QueueS) : Bool :=
  q.length < 2 ^ 64 && q.all fun b => b.length < 2 ^ 64 && b.all wfSig

/-- The chunk part of `Layer::save`: the 256 stacks one after the other,
with no length prefix (the array size is fixed). -/
def saveChunk (c : ChunkS) : List Nat := (c.map (saveList saveBlock)).flatten

/-- The chunk part of `Layer::load`: exactly 256 stacks. -/
def loadChunk (src : List Nat) : Option (ChunkS × List Nat) :=
  loadCount (loadList loadBlock) 256 src

/-- One key/chunk entry of `Layer::save`. -/
def saveEntry (p : Nat × ChunkS) : List Nat := beBytes 8 p.1 ++ saveChunk p.2

/-- One key/chunk entry of `Layer::load`. -/
def loadEntry (src : List Nat) : Option ((Nat × ChunkS) × List Nat) := do
  let (pos, s1) ← loadBytes 8 src
  let (c, s2) ← loadChunk s1
  some ((pos, c), s2)

/-- `impl SaveLoad for Layer`, `fn save`: the map length, then each key and
its 256 stacks. -/
def saveLayer (l : LayerS) : List Nat :=
  beBytes 8 l.length ++ (l.map saveEntry).flatten

/-- `impl SaveLoad for Layer`, `fn load`. -/
def loadLayer (src : List Nat) : Option (LayerS × List Nat) :=
  loadList loadEntry src

/-- `(u32, u8, u64, u8)` tuple save: fields in order. -/
def saveSig (s : Sig) : List Nat :=
  beBytes 4 s.1 ++ s.2.1 :: (beBytes 8 s.2.2.1 ++ [s.2.2.2])

/-- `(u32, u8, u64, u8)` tuple load. -/
def loadSig (src : List Nat) : Option (Sig × List Nat) := do
  let (v, s1) ← loadBytes 4 src
  match s1 with
  | [] => none
  | dl :: s2 => do
    let (ch, s3) ← loadBytes 8 s2
    match s3 with
    | [] => none
    | pi :: s4 => some ((v, dl, ch, pi), s4)

/-- The signal-queue file body (`self.signals_queue.save`). -/
def saveQueue (q : QueueS) : List Nat := saveList (saveList saveSig) q

/-- The signal-queue file decode (`SaveLoad::load` at the queue type). -/
def loadQueue (src : List Nat) : Option (QueueS × List Nat) :=
  loadList (loadList loadSig) src

theorem loadStack_save (st : List Block) (h : wfStack st = true) (r : List Nat) :
    loadList loadBlock (saveList saveBlock st ++ r) = some (st, r) := by
  simp only [wfStack, Bool.and_eq_true, decide_eq_true_eq, List.all_eq_true] at h
  exact loadList_save loadBlock saveBlock st r
    (fun b hb r' => loadBlock_saveBlock b r' (h.2 b hb)) h.1

theorem loadChunk_save (c : ChunkS) (h : wfChunkS c = true) (r : List Nat) :
    loadChunk (saveChunk c ++ r) = some (c, r) := by
  simp only [wfChunkS, Bool.and_eq_true, beq_iff_eq, List.all_eq_true] at h
  have := loadCount_save (loadList loadBlock) (saveList saveBlock) c r
    (fun st hst r' => loadStack_save st (h.2 st hst) r')
  rw [loadChunk, saveChunk, ← h.1]
  exact this

theorem loadEntry_save (p : Nat × ChunkS) (hk : p.1 < 2 ^ 64)
    (hc : wfChunkS p.2 = true) (r : List Nat) :
    loadEntry (saveEntry p ++ r) = some (p, r) := by
  have h64 : p.1 % 18446744073709551616 = p.1 :=
    Nat.mod_eq_of_lt (by norm_num at hk; exact hk)
  simp [loadEntry, saveEntry, List.append_assoc, loadBytes_beBytes, h64,
    loadChunk_save p.2 hc r]

theorem loadLayer_save (l : LayerS) (h : wfLayerS l = true) (r : List Nat) :
    loadLayer (saveLayer l ++ r) = some (l, r) := by
  simp only [wfLayerS, Bool.and_eq_true, decide_eq_true_eq, List.all_eq_true] at h
  have : saveLayer l = saveList saveEntry l := rfl
  rw [loadLayer, this]
  refine loadList_save loadEntry saveEntry l r (fun p hp r' => ?_) h.1
  have hp' := h.2 p hp
  simp only [Bool.and_eq_true, decide_eq_true_eq] at hp'
  exact loadEntry_save p hp'.1 hp'.2 r'

theorem loadSig_save (s : Sig) (h : wfSig s = true) (r : List Nat) :
    loadSig (saveSig s ++ r) = some (s, r) := by
  obtain ⟨v, dl, ch, pi⟩ := s
  simp only [wfSig, Bool.and_eq_true, decide_eq_true_eq] at h
  have h32 : v % 4294967296 = v :=
    Nat.mod_eq_of_lt (by have := h.1.1.1; norm_num at this; exact this)
  have h64 : ch % 18446744073709551616 = ch :=
    Nat.mod_eq_of_lt (by have := h.1.2; norm_num at this; exact this)
  simp [loadSig, saveSig, List.append_assoc, loadBytes_beBytes, h32, h64]

theorem loadQueue_save (q : QueueS) (h : wfQueue q = true) (r : List Nat) :
    loadQueue (saveQueue q ++ r) = some (q, r) := by
  simp only [wfQueue, Bool.and_eq_true, decide_eq_true_eq, List.all_eq_true] at h
  refine loadList_save _ _ q r (fun b hb r' => ?_) h.1
  have hb' := h.2 b hb
  simp only [Bool.and_eq_true, decide_eq_true_eq, List.all_eq_true] at hb'
  exact loadList_save loadSig saveSig b r'
    (fun sg hsg r'' => loadSig_save sg (hb'.2 sg hsg) r'') hb'.1

/-! ### Claim C1: serialization round-trip -/

/-- C1 (counterexample): `Block::save` followed by `Block::load` is *not* the
identity on every `Block`.  For `Gate(false, 1)` — a gate whose direction
byte has bit 0 set — the saved byte is `1`, which decodes as an *open* gate
with direction `0`: the open flag and bit 0 of the direction byte share the
same wire. -/
theorem c1_gate_not_identity :
    loadBlock (saveBlock (Block.gate false 1)) = some (Block.gate true 0, [])
      ∧ Block.gate true 0 ≠ Block.gate false 1 := by decide

/-- C1 (amended): for every well-formed layer iteration sequence and signal
queue — field values within their machine-integer ranges, chunks of exactly
256 stacks, and every `Gate` direction byte with bit 0 clear (all six legal
direction codes satisfy this) — encoding with the `SaveLoad` codec and
decoding again reproduces the exact key/chunk sequence (hence an identical
chunk-key set and identical stack contents in identical order in every slot)
and the exact per-bucket queue contents. -/
theorem c1_roundtrip (L : LayerS) (q : QueueS) (r r' : List Nat)
    (hL : wfLayerS L = true) (hq : wfQueue q = true) :
    loadLayer (saveLayer L ++ r) = some (L, r)
      ∧ loadQueue (saveQueue q ++ r') = some (q, r') :=
  ⟨loadLayer_save L hL r, loadQueue_save q hq r'⟩

/-- A chunk holding every `Block` variant (with an open and a closed gate),
used to witness C1. -/
def chunkC1 : ChunkS :=
  [[Block.color 7, Block.char 66], [Block.delay 5 96],
   [Block.storage 4294967290 4 96, Block.gate true 64], [Block.gate false 160],
   [Block.splitter 128], [Block.move 160], [Block.swap 32]]
    ++ List.replicate 249 []

/-- A layer with one materialized chunk at key `(-1, -1)`, witnessing C1. -/
def layerC1 : LayerS := [(18446744073709551615, chunkC1)]

/-- A queue with three non-empty buckets, witnessing C1. -/
def queueC1 : QueueS :=
  [[(7, 96, 0, 17)], [(0, 64, 18446744069414584320, 255)],
   [(4294967295, 192, 4294967295, 0)]]

set_option maxRecDepth 8192 in
/-- Witness for C1 at a concrete world fragment. -/
theorem c1_roundtrip_witness :
    (wfLayerS layerC1 = true ∧ wfQueue queueC1 = true)
      ∧ (loadLayer (saveLayer layerC1 ++ []) = some (layerC1, [])
          ∧ loadQueue (saveQueue queueC1 ++ []) = some (queueC1, [])) :=
  ⟨⟨by decide, by decide⟩, c1_roundtrip layerC1 queueC1 [] [] (by decide) (by decide)⟩

/-! ### Claim C2: chunk addressing (`Layer::get_where`) -/

/-- The chunk-coordinate computation of `Layer::get_where`:
`if x.is_negative() { -((-x - 1) / 16) - 1 } else { x / 16 }`.
Rust `/` truncates toward zero, Lean `ℤ`-division floors; both dividends here
(`x` resp. `-x - 1`) are non-negative in their branch, where the two agree. -/
def chunkCoord (x : ℤ) : ℤ := if x < 0 then -((-x - 1) / 16) - 1 else x / 16

/-- `Layer::get_where`.  The `as i32` / `u32::from_ne_bytes` reinterpretation
of the chunk coordinate keeps its low 32 bits, i.e. is `% 2 ^ 32` on `ℤ`;
`y2 << 32 | x2` with `x2 < 2 ^ 32` is `y2 * 2 ^ 32 + x2`; and
`((v % 16 + 16) % 16) << 4 | w` with `w < 16` is `_ * 16 + w` (Rust `%` on
`i64` differs from Lean `%` on negatives, but `(v % 16 + 16) % 16` has the
same value under both conventions). -/
def get_where (x y : ℤ) : Nat × Nat :=
  ((chunkCoord y % 2 ^ 32).toNat * 2 ^ 32 + (chunkCoord x % 2 ^ 32).toNat,
   ((y % 16 + 16) % 16).toNat * 16 + ((x % 16 + 16) % 16).toNat)

/-- Sign-extension of a packed 32-bit half of a chunk key, for reading a
chunk key back as a signed coordinate pair ("both as reinterpreted signed
32-bit values", spec §3). -/
def signed32 (n : Nat) : ℤ := if n < 2 ^ 31 then (n : ℤ) else (n : ℤ) - 2 ^ 32

/-- Modelled from the spec: the reconstruction direction of the
addressing-inverse property — chunk_x from the low 32 bits, chunk_y from the
high 32 bits, in-chunk x from the low 4 index bits, in-chunk y from the high
4 index bits (`(x, y) = (chunk_x * 16 + ix, chunk_y * 16 + iy)`). -/
def reconstructPos (chunk idx : Nat) : ℤ × ℤ :=
  (signed32 (chunk % 2 ^ 32) * 16 + (idx % 16 : Nat),
   signed32 (chunk / 2 ^ 32) * 16 + (idx / 16 : Nat))

theorem chunkCoord_eq (x : ℤ) : chunkCoord x = x / 16 := by
  unfold chunkCoord
  split <;> omega

theorem signed32_emod (q : ℤ) (h1 : -(2 ^ 31) ≤ q) (h2 : q < 2 ^ 31) :
    signed32 (q % 2 ^ 32).toNat = q := by
  unfold signed32
  split <;> omega

/-- C2 (counterexample): the claim quantifies over every signed-integer pair,
but `get_where` casts the chunk coordinate through `i32`, so a coordinate
whose chunk index overflows 32 bits is not recovered: `x = 2 ^ 36` lands in
chunk `2 ^ 32`, whose low 32 bits are 0. -/
theorem c2_not_inverse_out_of_range :
    reconstructPos (get_where (2 ^ 36) 0).1 (get_where (2 ^ 36) 0).2
      ≠ ((2 : ℤ) ^ 36, (0 : ℤ)) := by decide

/-- C2 (amended): on the range where the chunk coordinate fits in an `i32`
(`-2 ^ 35 ≤ x, y < 2 ^ 35`), `get_where` packs `floor(x/16)`/`floor(y/16)`
into the low/high key halves, uses index `(y mod 16) * 16 + (x mod 16)` with
residues in `[0, 16)`, and reconstruction is exact; `get_where (-1) (-1)`
is chunk `(-1, -1)` (key `2 ^ 64 - 1`) with index 255, and
`get_where 0 0 = (0, 0)`. -/
theorem c2_inverse (x y : ℤ)
    (hx1 : -(2 ^ 35) ≤ x) (hx2 : x < 2 ^ 35)
    (hy1 : -(2 ^ 35) ≤ y) (hy2 : y < 2 ^ 35) :
    reconstructPos (get_where x y).1 (get_where x y).2 = (x, y)
      ∧ (get_where x y).1
          = ((y / 16) % 2 ^ 32).toNat * 2 ^ 32 + ((x / 16) % 2 ^ 32).toNat
      ∧ (get_where x y).2 = (y % 16).toNat * 16 + (x % 16).toNat
      ∧ get_where (-1) (-1) = (2 ^ 64 - 1, 255)
      ∧ get_where 0 0 = (0, 0) := by
  have hpack : (get_where x y).1
      = ((y / 16) % 2 ^ 32).toNat * 2 ^ 32 + ((x / 16) % 2 ^ 32).toNat := by
    simp [get_where, chunkCoord_eq]
  have hidx : (get_where x y).2 = (y % 16).toNat * 16 + (x % 16).toNat := by
    have h1 : (y % 16 + 16) % 16 = y % 16 := by omega
    have h2 : (x % 16 + 16) % 16 = x % 16 := by omega
    simp [get_where, h1, h2]
  refine ⟨?_, hpack, hidx, by decide, by decide⟩
  have hX : ((x / 16) % 2 ^ 32).toNat < 2 ^ 32 := by omega
  have hY : ((y / 16) % 2 ^ 32).toNat < 2 ^ 32 := by omega
  have hB : (x % 16).toNat < 16 := by omega
  have hA : (y % 16).toNat < 16 := by omega
  have hchunk_mod : (get_where x y).1 % 2 ^ 32 = ((x / 16) % 2 ^ 32).toNat := by
    rw [hpack]; omega
  have hchunk_div : (get_where x y).1 / 2 ^ 32 = ((y / 16) % 2 ^ 32).toNat := by
    rw [hpack]; omega
  have hidx_mod : (get_where x y).2 % 16 = (x % 16).toNat := by
    rw [hidx]; omega
  have hidx_div : (get_where x y).2 / 16 = (y % 16).toNat := by
    rw [hidx]; omega
  have hsx : signed32 ((x / 16) % 2 ^ 32).toNat = x / 16 :=
    signed32_emod (x / 16) (by omega) (by omega)
  have hsy : signed32 ((y / 16) % 2 ^ 32).toNat = y / 16 :=
    signed32_emod (y / 16) (by omega) (by omega)
  unfold reconstructPos
  rw [hchunk_mod, hchunk_div, hidx_mod, hidx_div, hsx, hsy]
  refine Prod.ext ?_ ?_ <;> simp <;> omega

/-- Witness for C2 at `(x, y) = (-33, 47)`. -/
theorem c2_inverse_witness :
    (-(2 ^ 35) ≤ (-33 : ℤ) ∧ (-33 : ℤ) < 2 ^ 35
        ∧ -(2 ^ 35) ≤ (47 : ℤ) ∧ (47 : ℤ) < 2 ^ 35)
      ∧ (reconstructPos (get_where (-33) 47).1 (get_where (-33) 47).2 = (-33, 47)
          ∧ (get_where (-33) 47).1
              = (((47 : ℤ) / 16) % 2 ^ 32).toNat * 2 ^ 32
                  + (((-33 : ℤ) / 16) % 2 ^ 32).toNat
          ∧ (get_where (-33) 47).2
              = ((47 : ℤ) % 16).toNat * 16 + ((-33 : ℤ) % 16).toNat
          ∧ get_where (-1) (-1) = (2 ^ 64 - 1, 255)
          ∧ get_where 0 0 = (0, 0)) :=
  ⟨by decide,
    c2_inverse (-33) 47 (by decide) (by decide) (by decide) (by decide)⟩

/-! ### Direction algebra and `pos_move` (runner.rs) -/

def DIR_UP_L : Nat := 0b00100000
def DIR_DOWN_L : Nat := 0b11000000
def DIR_LEFT : Nat := 0b10000000
def DIR_RIGHT : Nat := 0b01100000
def DIR_UP : Nat := 0b01000000
def DIR_DOWN : Nat := 0b10100000

/-- `dir_rev`: reverses the direction (xor of the top 3 bits), keeping the
layer bits intact. -/
def dir_rev (d : Nat) : Nat := d ^^^ 0b11100000

/-- `is_same_dir`: compares only the top 3 bits. -/
def is_same_dir (a b : Nat) : Bool := a &&& 0b11100000 == b &&& 0b11100000

/-- `is_side`: true when the block direction `a` is neither equal to nor the
reverse of the signal direction `b` — a side-signal. -/
def is_side (a b : Nat) : Bool := !(is_same_dir a b || is_same_dir a (dir_rev b))

/-- `pos_move` (runner.rs): advance one cell/layer along the top 3 bits of
`dir_layer`; `None` models `return false` (no movement).  The u64 chunk-key
arithmetic `pos_chunk ± k` is modelled with release-mode wrapping,
`(pos_chunk + 2 ^ 64 ± k) % 2 ^ 64` (a debug build would instead panic on
underflow at `pos_chunk - 1` with `pos_chunk = 0`). -/
def pos_move (dir_layer pos_chunk pos_inner : Nat) : Option (Nat × Nat × Nat) :=
  let dir := dir_layer &&& 0b11100000
  if dir = 0b10000000 then
    -- left
    if pos_inner &&& 0b1111 = 0 then
      some (dir_layer, (pos_chunk + 2 ^ 64 - 1) % 2 ^ 64, pos_inner ||| 0b1111)
    else
      some (dir_layer, pos_chunk, pos_inner - 1)
  else if dir = 0b01100000 then
    -- right
    if pos_inner &&& 0b1111 = 0b1111 then
      some (dir_layer, (pos_chunk + 1) % 2 ^ 64, pos_inner &&& 0b11110000)
    else
      some (dir_layer, pos_chunk, pos_inner + 1)
  else if dir = 0b01000000 then
    -- up
    if pos_inner &&& 0b11110000 = 0 then
      some (dir_layer, (pos_chunk + 2 ^ 64 - 2 ^ 32) % 2 ^ 64, pos_inner ||| 0b11110000)
    else
      some (dir_layer, pos_chunk, pos_inner - 16)
  else if dir = 0b10100000 then
    -- down
    if pos_inner &&& 0b11110000 = 0b11110000 then
      some (dir_layer, (pos_chunk + 2 ^ 32) % 2 ^ 64, pos_inner &&& 0b1111)
    else
      some (dir_layer, pos_chunk, pos_inner + 16)
  else if dir = 0b00100000 then
    -- up (layer)
    if dir_layer &&& 0b11111 = 0 then none
    else some (dir_layer - 1, pos_chunk, pos_inner)
  else if dir = 0b11000000 then
    -- down (layer)
    if dir_layer &&& 0b11111 = 0b11111 then none
    else some (dir_layer + 1, pos_chunk, pos_inner)
  else none

/-- C4: `pos_move` violates the claim at a chunk boundary.  Moving left from
in-chunk x = 0 of chunk key 0 (chunk `(0, 0)`) executes `pos_chunk -= 1` on
the packed u64 key; the borrow runs from the low (chunk_x) half into the high
(chunk_y) half, yielding key `2 ^ 64 - 1` = chunk `(-1, -1)` instead of the
claimed chunk `(0, -1)` (key `2 ^ 32 - 1`) with chunk_y unchanged: the high
32 bits of the result differ from the high 32 bits of the start key. -/
theorem c4_left_borrow_bug :
    pos_move DIR_LEFT 0 0 = some (DIR_LEFT, 2 ^ 64 - 1, 15)
      ∧ (2 ^ 64 - 1) / 2 ^ 32 ≠ 0 / 2 ^ 32 := by decide

/-! ### Runtime world model (`World`, `Layer::get_mut`, `Runner::tick`) -/

/-- A chunk at runtime: the `[Vec<Block>; 256]` array as a function from the
in-chunk index to the stack there (bottom-to-top; the last element is the
topmost block, as `Vec::push`/`last_mut` use). -/
def Chunk : Type := Nat → List Block

/-- A layer at runtime: the `HashMap<u64, [Vec<Block>; 256]>` as a partial
lookup function from chunk keys. -/
def LayerRT : Type := Nat → Option Chunk

/-- Pointwise update of a function — one `HashMap::insert` or one in-place
array-slot assignment. -/
def updF {α : Type} (f : Nat → α) (i : Nat) (v : α) : Nat → α :=
  fun j => if j = i then v else f j

/-- `create_empty_chunk`: 256 empty stacks. -/
def emptyChunk : Chunk := fun _ => []

/-- `Layer::get_mut`: returns the chunk for the key, inserting an empty chunk
first when the key is absent ("Will create the chunk if it doesn't exist").
The returned layer is the (possibly grown) map. -/
def layer_get_mut (l : LayerRT) (k : Nat) : LayerRT × Chunk :=
  match l k with
  | some c => (l, c)
  | none => (updF l k (some emptyChunk), emptyChunk)

/-- `World` at runtime: 32 layers (indexed through `dir_layer & 0b11111`)
plus the signal queue. -/
structure WorldRT where
  layers : Nat → LayerRT
  queue : QueueS

/-- Writing one mutated stack back: layer `li`, key `k`, the chunk `c` that
was fetched, slot `i` set to `st`.  Models mutation through the `&mut`
returned by `get_mut`. -/
def putStack (w : WorldRT) (li k : Nat) (c : Chunk) (i : Nat)
    (st : List Block) : WorldRT :=
  { w with layers := updF w.layers li (updF (w.layers li) k (some (updF c i st))) }

/-- `Vec::last_mut` assignment: replace the last element. -/
def setTop (st : List Block) (b : Block) : List Block := st.dropLast ++ [b]

/-- The push loop inside `World::signals_mut` once the queue is long enough:
append `s` to bucket `i`. -/
def appendAt : QueueS → Nat → Sig → QueueS
  | [], _, _ => []
  | b :: q, 0, s => (b ++ [s]) :: q
  | b :: q, n + 1, s => b :: appendAt q n s

/-- `World::signals_mut(i)` followed by `push(s)`: grow the queue with empty
buckets while `i >= len`, then push into bucket `i`. -/
def signals_push (q : QueueS) (i : Nat) (s : Sig) : QueueS :=
  appendAt (q ++ List.replicate (i + 1 - q.length) []) i s

/-- `self.world.signals_queue[0].push(s)`: direct indexing, which panics
(`none`) when the queue is empty. -/
def push0 (q : QueueS) (s : Sig) : Option QueueS :=
  match q with
  | [] => none
  | b :: r => some ((b ++ [s]) :: r)

/-- The Storage side-signal mode table (`Runner::tick`, `Block::Storage`
arm).  u32 saturating arithmetic on values `< 2 ^ 32`; mode 7 maps division
by zero to `u32::MAX`; mode 8 is Rust `*value %= signal`, which *panics* on
`signal == 0` (`none`); any other mode leaves the value unchanged. -/
def storageApply (value mode signal : Nat) : Option Nat :=
  match mode with
  | 0 => some signal
  | 1 => some (value ||| signal)
  | 2 => some (value &&& signal)
  | 3 => some (value ^^^ signal)
  | 4 => some (min (value + signal) (2 ^ 32 - 1))
  | 5 => some (value - signal)
  | 6 => some (min (value * signal) (2 ^ 32 - 1))
  | 7 => some (if signal = 0 then 2 ^ 32 - 1 else value / signal)
  | 8 => if signal = 0 then none else some (value % signal)
  | _ => some value

/-- The body of the `for` loop in `Runner::tick` for one signal, acting on a
world whose queue is the remainder after `pop_front`.  `none` models a Rust
panic.  The `Splitter` arm is absent from the `match` in runner.rs; it is
modelled from the spec (see its branch). -/
def processSignal (w : WorldRT) (sg : Sig) : Option WorldRT :=
  let signal := sg.1
  let dir_layer := sg.2.1
  let pos_chunk := sg.2.2.1
  let pos_inner := sg.2.2.2
  let li := dir_layer &&& 0b11111
  let lc := layer_get_mut (w.layers li) pos_chunk
  let w1 : WorldRT := { layers := updF w.layers li lc.1, queue := w.queue }
  let chunk := lc.2
  match (chunk pos_inner).getLast? with
  | none => some w1
  | some b =>
    match b with
    | .color _ =>
      some (putStack w1 li pos_chunk chunk pos_inner
        (setTop (chunk pos_inner) (.color signal)))
    | .char _ =>
      some (putStack w1 li pos_chunk chunk pos_inner
        (setTop (chunk pos_inner) (.char signal)))
    | .delay how_long direction =>
      if is_side direction dir_layer then
        some (putStack w1 li pos_chunk chunk pos_inner
          (setTop (chunk pos_inner) (.delay signal direction)))
      else
        match pos_move dir_layer pos_chunk pos_inner with
        | some (dl2, pc2, pi2) =>
          some { w1 with
            queue := signals_push w1.queue how_long (signal, dl2, pc2, pi2) }
        | none => some w1
    | .storage value mode direction =>
      if is_side direction dir_layer then
        match storageApply value mode signal with
        | some v2 =>
          some (putStack w1 li pos_chunk chunk pos_inner
            (setTop (chunk pos_inner) (.storage v2 mode direction)))
        | none => none
      else if is_same_dir direction dir_layer then
        let w2 := putStack w1 li pos_chunk chunk pos_inner
          (setTop (chunk pos_inner) (.storage value (min signal 255) direction))
        match pos_move dir_layer pos_chunk pos_inner with
        | some (dl2, pc2, pi2) =>
          match push0 w2.queue (value, dl2, pc2, pi2) with
          | some q2 => some { w2 with queue := q2 }
          | none => none
        | none => some w2
      else some w1
    | .gate opn direction =>
      if is_side direction dir_layer then
        some (putStack w1 li pos_chunk chunk pos_inner
          (setTop (chunk pos_inner) (.gate (signal == 0) direction)))
      else if opn then
        match pos_move dir_layer pos_chunk pos_inner with
        | some (dl2, pc2, pi2) =>
          match push0 w1.queue (signal, dl2, pc2, pi2) with
          | some q2 => some { w1 with queue := q2 }
          | none => none
        | none => some w1
      else some w1
    | .splitter direction =>
      -- Modelled from the spec: the `match` in `Runner::tick` has no
      -- `Block::Splitter` arm; the spec (§4.3, §9) prescribes: "responds
      -- only to side-signals; must emit the incoming value as two signals,
      -- one toward each of the two cells along the block's own axis (`dir`
      -- and its reverse), scheduled for the next tick."  The next tick is
      -- the first remaining bucket (created when absent); an out-of-bounds
      -- side is dropped like every other failed advance.
      if is_side direction dir_layer then
        let layer := dir_layer &&& 0b11111
        let q1 :=
          match pos_move (direction ||| layer) pos_chunk pos_inner with
          | some (dl2, pc2, pi2) => signals_push w1.queue 0 (signal, dl2, pc2, pi2)
          | none => w1.queue
        let q2 :=
          match pos_move (dir_rev direction ||| layer) pos_chunk pos_inner with
          | some (dl2, pc2, pi2) => signals_push q1 0 (signal, dl2, pc2, pi2)
          | none => q1
        some { w1 with queue := q2 }
      else some w1
    | .move direction =>
      if is_side direction dir_layer then
        let layer := dir_layer &&& 0b11111
        let dla := if signal == 0 then direction ||| layer
                   else dir_rev direction ||| layer
        let dlb := if signal == 0 then dir_rev direction ||| layer
                   else direction ||| layer
        match pos_move dla pos_chunk pos_inner,
            pos_move dlb pos_chunk pos_inner with
        | some (adl, apc, api), some (bdl, bpc, bpi) =>
          let lca := layer_get_mut (w1.layers (adl &&& 0b11111)) apc
          let w2 : WorldRT :=
            { layers := updF w1.layers (adl &&& 0b11111) lca.1, queue := w1.queue }
          match (lca.2 api).getLast? with
          | none => some w2
          | some origin =>
            let w3 := putStack w2 (adl &&& 0b11111) apc lca.2 api
              ((lca.2 api).dropLast)
            let lcb := layer_get_mut (w3.layers (bdl &&& 0b11111)) bpc
            let w4 : WorldRT :=
              { layers := updF w3.layers (bdl &&& 0b11111) lcb.1, queue := w3.queue }
            some (putStack w4 (bdl &&& 0b11111) bpc lcb.2 bpi
              (lcb.2 bpi ++ [origin]))
        | _, _ => some w1
      else some w1
    | .swap direction =>
      if is_side direction dir_layer then
        let layer := dir_layer &&& 0b11111
        let dla := dir_rev direction ||| layer
        let dlb := direction ||| layer
        match pos_move dla pos_chunk pos_inner,
            pos_move dlb pos_chunk pos_inner with
        | some (adl, apc, api), some (bdl, bpc, bpi) =>
          let lca := layer_get_mut (w1.layers (adl &&& 0b11111)) apc
          let w2 : WorldRT :=
            { layers := updF w1.layers (adl &&& 0b11111) lca.1, queue := w1.queue }
          match (lca.2 api).getLast? with
          | none => some w2
          | some first =>
            let w3 := putStack w2 (adl &&& 0b11111) apc lca.2 api
              ((lca.2 api).dropLast)
            let lcb := layer_get_mut (w3.layers (bdl &&& 0b11111)) bpc
            let w4 : WorldRT :=
              { layers := updF w3.layers (bdl &&& 0b11111) lcb.1, queue := w3.queue }
            match (lcb.2 bpi).getLast? with
            | some second =>
              let w5 := putStack w4 (bdl &&& 0b11111) bpc lcb.2 bpi
                (setTop (lcb.2 bpi) first)
              let lca2 := layer_get_mut (w5.layers (adl &&& 0b11111)) apc
              let w6 : WorldRT :=
                { layers := updF w5.layers (adl &&& 0b11111) lca2.1, queue := w5.queue }
              some (putStack w6 (adl &&& 0b11111) apc lca2.2 api
                (lca2.2 api ++ [second]))
            | none =>
              let lca2 := layer_get_mut (w4.layers (adl &&& 0b11111)) apc
              let w6 : WorldRT :=
                { layers := updF w4.layers (adl &&& 0b11111) lca2.1, queue := w4.queue }
              some (putStack w6 (adl &&& 0b11111) apc lca2.2 api
                (lca2.2 api ++ [first]))
        | _, _ => some w1
      else some w1

/-- The `for` loop of `Runner::tick` over the popped bucket, in submission
order; a panic in any step aborts (`none`). -/
def runSignals : WorldRT → List Sig → Option WorldRT
  | w, [] => some w
  | w, s :: ss =>
    match processSignal w s with
    | some w2 => runSignals w2 ss
    | none => none

/-- `Runner::tick`: ensure at least 2 buckets, `pop_front` the due bucket,
process its signals in order against the remaining queue. -/
def tick (w : WorldRT) : Option WorldRT :=
  match (if w.queue.length < 2 then w.queue ++ [[]] else w.queue) with
  | [] => none
  | bucket :: rest => runSignals { layers := w.layers, queue := rest } bucket

/-! ### Queue and map helper lemmas -/

theorem layer_get_mut_of_some {l : LayerRT} {k : Nat} {c : Chunk}
    (h : l k = some c) : layer_get_mut l k = (l, c) := by
  unfold layer_get_mut
  rw [h]

theorem getD_replicate (k j : Nat) :
    (List.replicate k ([] : List Sig)).getD j [] = [] := by
  induction k generalizing j with
  | zero => cases j <;> rfl
  | succ k ih => cases j with
    | zero => rfl
    | succ j => exact ih j

theorem getD_pad (q : QueueS) (k j : Nat) :
    (q ++ List.replicate k []).getD j [] = q.getD j [] := by
  induction q generalizing j with
  | nil => simpa using getD_replicate k j
  | cons b q ih => cases j with
    | zero => rfl
    | succ j => exact ih j

theorem appendAt_getD_self (q : QueueS) (i : Nat) (s : Sig) (h : i < q.length) :
    (appendAt q i s).getD i [] = q.getD i [] ++ [s] := by
  induction q generalizing i with
  | nil => simp at h
  | cons b q ih => cases i with
    | zero => rfl
    | succ n => exact ih n (by simpa using h)

theorem appendAt_getD_other (q : QueueS) (i : Nat) (s : Sig) (j : Nat)
    (hj : j ≠ i) :
    (appendAt q i s).getD j [] = q.getD j [] := by
  induction q generalizing i j with
  | nil => simp [appendAt]
  | cons b q ih =>
    cases i with
    | zero => cases j with
      | zero => exact absurd rfl hj
      | succ j => rfl
    | succ n => cases j with
      | zero => rfl
      | succ j => exact ih n j (fun hh => hj (by rw [hh]))

theorem signals_push_length_lt (q : QueueS) (i : Nat) (s : Sig) :
    i < (q ++ List.replicate (i + 1 - q.length) ([] : List Sig)).length := by
  simp only [List.length_append, List.length_replicate]
  omega

theorem signals_push_getD_self (q : QueueS) (i : Nat) (s : Sig) :
    (signals_push q i s).getD i [] = q.getD i [] ++ [s] := by
  rw [signals_push, appendAt_getD_self _ _ _ (signals_push_length_lt q i s),
    getD_pad]

theorem signals_push_getD_other (q : QueueS) (i : Nat) (s : Sig) (j : Nat)
    (hj : j ≠ i) :
    (signals_push q i s).getD j [] = q.getD j [] := by
  rw [signals_push, appendAt_getD_other _ _ _ _ hj, getD_pad]

/-! ### Claim C3: Delay blocks -/

/-- C3: a `Delay(ticks, dir)` block topping the target stack of a delivered
signal.  A side-signal overwrites the `ticks` field with the signal value and
enqueues nothing; a front-signal whose one-cell advance in the arrival
direction succeeds enqueues the same value at the advanced position in the
bucket at offset `ticks` of the remaining queue (delivery at tick T+ticks,
counting the first remaining bucket as the offset-0 bucket) and changes no
block; a front-signal whose advance fails changes nothing.  -/
theorem c3_delay (w : WorldRT) (s dl pc pi t d : Nat) (c : Chunk)
    (hc : w.layers (dl &&& 0b11111) pc = some c)
    (htop : (c pi).getLast? = some (.delay t d)) :
    (is_side d dl = true →
      ∃ w', processSignal w (s, dl, pc, pi) = some w'
        ∧ w'.queue = w.queue
        ∧ w'.layers (dl &&& 0b11111) pc
            = some (updF c pi (setTop (c pi) (.delay s d)))
        ∧ ∀ li' k', ¬(li' = dl &&& 0b11111 ∧ k' = pc) →
            w'.layers li' k' = w.layers li' k')
    ∧ (is_side d dl = false →
      ∀ dl2 pc2 pi2, pos_move dl pc pi = some (dl2, pc2, pi2) →
      ∃ w', processSignal w (s, dl, pc, pi) = some w'
        ∧ w'.queue = signals_push w.queue t (s, dl2, pc2, pi2)
        ∧ w'.queue.getD t [] = w.queue.getD t [] ++ [(s, dl2, pc2, pi2)]
        ∧ (∀ j, j ≠ t → w'.queue.getD j [] = w.queue.getD j [])
        ∧ ∀ li' k', w'.layers li' k' = w.layers li' k')
    ∧ (is_side d dl = false → pos_move dl pc pi = none →
      ∃ w', processSignal w (s, dl, pc, pi) = some w'
        ∧ w'.queue = w.queue
        ∧ ∀ li' k', w'.layers li' k' = w.layers li' k') := by
  have hlc : layer_get_mut (w.layers (dl &&& 0b11111)) pc
      = (w.layers (dl &&& 0b11111), c) := layer_get_mut_of_some hc
  refine ⟨?_, ?_, ?_⟩
  · intro hside
    simp only [processSignal, hlc, htop, hside, if_true]
    refine ⟨_, rfl, rfl, ?_, ?_⟩
    · simp [putStack, updF]
    · intro li' k' hne
      simp only [putStack, updF]
      split_ifs with h1 h2 <;> simp_all [updF]
  · intro hside dl2 pc2 pi2 hmv
    simp only [processSignal, hlc, htop, hside, Bool.false_eq_true, if_false, hmv]
    refine ⟨_, rfl, rfl, signals_push_getD_self _ _ _,
      fun j hj => signals_push_getD_other _ _ _ _ hj, ?_⟩
    intro li' k'
    simp only [updF]
    split <;> simp_all
  · intro hside hmv
    simp only [processSignal, hlc, htop, hside, Bool.false_eq_true, if_false, hmv]
    refine ⟨_, rfl, rfl, ?_⟩
    intro li' k'
    simp only [updF]
    split <;> simp_all

/-- A chunk with a `Delay(5, RIGHT)` block at index 17, for the C3 witness. -/
def chunkC3 : Chunk := fun i => if i = 17 then [Block.delay 5 DIR_RIGHT] else []

/-- A world holding `chunkC3` at layer 0, chunk key 0, for the C3 witness. -/
def worldC3 : WorldRT :=
  { layers := fun li k => if li = 0 ∧ k = 0 then some chunkC3 else none,
    queue := [[], []] }

/-- Witness for C3: the spec example.  A front-signal of value 7 into
`Delay(5, RIGHT)` (arriving along `RIGHT`) is enqueued at the right
neighbour (index 18) in bucket 5; a side-signal of value 3 (arriving along
`UP`) rewrites the block to `Delay(3, RIGHT)` and enqueues nothing. -/
theorem c3_delay_witness :
    (worldC3.layers (DIR_RIGHT &&& 0b11111) 0 = some chunkC3
      ∧ (chunkC3 17).getLast? = some (Block.delay 5 DIR_RIGHT)
      ∧ is_side DIR_RIGHT DIR_RIGHT = false
      ∧ pos_move DIR_RIGHT 0 17 = some (DIR_RIGHT, 0, 18)
      ∧ is_side DIR_RIGHT DIR_UP = true)
    ∧ (∃ w', processSignal worldC3 (7, DIR_RIGHT, 0, 17) = some w'
        ∧ w'.queue.getD 5 [] = worldC3.queue.getD 5 [] ++ [(7, DIR_RIGHT, 0, 18)]
        ∧ ∀ li' k', w'.layers li' k' = worldC3.layers li' k')
    ∧ (∃ w', processSignal worldC3 (3, DIR_UP, 0, 17) = some w'
        ∧ w'.queue = worldC3.queue
        ∧ w'.layers 0 0
            = some (updF chunkC3 17 (setTop (chunkC3 17) (Block.delay 3 DIR_RIGHT)))) := by
  refine ⟨⟨rfl, rfl, rfl, rfl, rfl⟩, ?_, ?_⟩
  · obtain ⟨-, h2, -⟩ :=
      c3_delay worldC3 7 DIR_RIGHT 0 17 5 DIR_RIGHT chunkC3 rfl rfl
    obtain ⟨w', hw, -, hq, -, hl⟩ := h2 rfl DIR_RIGHT 0 18 rfl
    exact ⟨w', hw, hq, hl⟩
  · obtain ⟨h1, -, -⟩ :=
      c3_delay worldC3 3 DIR_UP 0 17 5 DIR_RIGHT chunkC3 rfl rfl
    obtain ⟨w', hw, hq, hl, -⟩ := h1 rfl
    exact ⟨w', hw, hq, hl⟩

/-! ### Claims C5/C6: Storage blocks -/

/-- A chunk with a `Storage(5, mode 8, RIGHT)` block at index 17, for the C5
counterexample. -/
def chunkC5 : Chunk := fun i => if i = 17 then [Block.storage 5 8 DIR_RIGHT] else []

/-- A world holding `chunkC5` at layer 0, chunk key 0. -/
def worldC5 : WorldRT :=
  { layers := fun li k => if li = 0 ∧ k = 0 then some chunkC5 else none,
    queue := [[]] }

/-- C5 (counterexample): a side-signal of value 0 into a `Storage` block in
mode 8 does not complete with an updated value as the claim states for every
signal — `*value %= signal` is a Rust remainder by zero, a panic. -/
theorem c5_mode8_zero_panics :
    processSignal worldC5 (0, DIR_UP, 0, 17) = none
      ∧ storageApply 5 8 0 = none := ⟨rfl, rfl⟩

/-- The effect part of the Storage side-signal arm, shared by the per-mode
cases of C5. -/
theorem storage_side_effect (w : WorldRT) (s dl pc pi v m d v2 : Nat) (c : Chunk)
    (hc : w.layers (dl &&& 0b11111) pc = some c)
    (htop : (c pi).getLast? = some (.storage v m d))
    (hside : is_side d dl = true)
    (happ : storageApply v m s = some v2) :
    ∃ w', processSignal w (s, dl, pc, pi) = some w'
      ∧ w'.queue = w.queue
      ∧ w'.layers (dl &&& 0b11111) pc
          = some (updF c pi (setTop (c pi) (.storage v2 m d)))
      ∧ ∀ li' k', ¬(li' = dl &&& 0b11111 ∧ k' = pc) →
          w'.layers li' k' = w.layers li' k' := by
  have hlc : layer_get_mut (w.layers (dl &&& 0b11111)) pc
      = (w.layers (dl &&& 0b11111), c) := layer_get_mut_of_some hc
  simp only [processSignal, hlc, htop, hside, if_true, happ]
  refine ⟨_, rfl, rfl, ?_, ?_⟩
  · simp [putStack, updF]
  · intro li' k' hne
    simp only [putStack, updF]
    split_ifs with h1 h2 <;> simp_all [updF]

/-- C5 (amended): a side-signal `s` into `Storage(v, m, d)` updates the value
by the mode table as exact u32 arithmetic — 0 overwrite, 1 or, 2 and, 3 xor,
4 saturating add, 5 saturating sub, 6 saturating mul, 7 saturating div with
`s = 0` giving `u32::MAX`, 8 remainder *provided `s ≠ 0`* (`s = 0` panics,
see the counterexample), any other mode a no-op — the result stays a u32,
and no signal is enqueued in any mode. -/
theorem c5_storage_side (w : WorldRT) (s dl pc pi v m d : Nat) (c : Chunk)
    (hc : w.layers (dl &&& 0b11111) pc = some c)
    (htop : (c pi).getLast? = some (.storage v m d))
    (hside : is_side d dl = true)
    (hm8 : m = 8 → s ≠ 0) :
    ∃ v2, storageApply v m s = some v2
      ∧ (m = 0 → v2 = s)
      ∧ (m = 1 → v2 = v ||| s)
      ∧ (m = 2 → v2 = v &&& s)
      ∧ (m = 3 → v2 = v ^^^ s)
      ∧ (m = 4 → v2 = min (v + s) (2 ^ 32 - 1))
      ∧ (m = 5 → v2 = v - s)
      ∧ (m = 6 → v2 = min (v * s) (2 ^ 32 - 1))
      ∧ (m = 7 → v2 = if s = 0 then 2 ^ 32 - 1 else v / s)
      ∧ (m = 8 → v2 = v % s)
      ∧ (9 ≤ m → v2 = v)
      ∧ (v < 2 ^ 32 → s < 2 ^ 32 → v2 < 2 ^ 32)
      ∧ ∃ w', processSignal w (s, dl, pc, pi) = some w'
          ∧ w'.queue = w.queue
          ∧ w'.layers (dl &&& 0b11111) pc
              = some (updF c pi (setTop (c pi) (.storage v2 m d)))
          ∧ ∀ li' k', ¬(li' = dl &&& 0b11111 ∧ k' = pc) →
              w'.layers li' k' = w.layers li' k' := by
  have hv2 : ∃ v2, storageApply v m s = some v2
      ∧ (m = 0 → v2 = s)
      ∧ (m = 1 → v2 = v ||| s)
      ∧ (m = 2 → v2 = v &&& s)
      ∧ (m = 3 → v2 = v ^^^ s)
      ∧ (m = 4 → v2 = min (v + s) (2 ^ 32 - 1))
      ∧ (m = 5 → v2 = v - s)
      ∧ (m = 6 → v2 = min (v * s) (2 ^ 32 - 1))
      ∧ (m = 7 → v2 = if s = 0 then 2 ^ 32 - 1 else v / s)
      ∧ (m = 8 → v2 = v % s)
      ∧ (9 ≤ m → v2 = v)
      ∧ (v < 2 ^ 32 → s < 2 ^ 32 → v2 < 2 ^ 32) := by
    rcases m with _ | _ | _ | _ | _ | _ | _ | _ | _ | m
    · exact ⟨s, rfl, by simp, by simp, by simp, by simp, by simp, by simp,
        by simp, by simp, by simp, by omega, fun _ hs => hs⟩
    · exact ⟨v ||| s, rfl, by simp, by simp, by simp, by simp, by simp, by simp,
        by simp, by simp, by simp, by omega,
        fun hv hs => Nat.or_lt_two_pow hv hs⟩
    · exact ⟨v &&& s, rfl, by simp, by simp, by simp, by simp, by simp, by simp,
        by simp, by simp, by simp, by omega,
        fun hv _ => Nat.lt_of_le_of_lt Nat.and_le_left hv⟩
    · exact ⟨v ^^^ s, rfl, by simp, by simp, by simp, by simp, by simp, by simp,
        by simp, by simp, by simp, by omega,
        fun hv hs => Nat.xor_lt_two_pow hv hs⟩
    · exact ⟨min (v + s) (2 ^ 32 - 1), rfl, by simp, by simp, by simp, by simp,
        by simp, by simp, by simp, by simp, by simp, by omega,
        fun _ _ => by omega⟩
    · exact ⟨v - s, rfl, by simp, by simp, by simp, by simp, by simp, by simp,
        by simp, by simp, by simp, by omega, fun hv _ => by omega⟩
    · exact ⟨min (v * s) (2 ^ 32 - 1), rfl, by simp, by simp, by simp, by simp,
        by simp, by simp, by simp, by simp, by simp, by omega,
        fun _ _ => by omega⟩
    · exact ⟨if s = 0 then 2 ^ 32 - 1 else v / s, rfl, by simp, by simp,
        by simp, by simp, by simp, by simp, by simp, by simp, by simp,
        by omega, fun hv _ => by
          split
          · omega
          · exact Nat.lt_of_le_of_lt (Nat.div_le_self v s) hv⟩
    · refine ⟨v % s, ?_, by simp, by simp, by simp, by simp, by simp, by simp,
        by simp, by simp, by simp, by omega,
        fun hv _ => Nat.lt_of_le_of_lt (Nat.mod_le v s) hv⟩
      simp only [storageApply]
      rw [if_neg (hm8 rfl)]
    · exact ⟨v, rfl, by omega, by omega, by omega, by omega, by omega,
        by omega, by omega, by omega, by omega, by simp, fun hv _ => hv⟩
  obtain ⟨v2, happ, hrest⟩ := hv2
  exact ⟨v2, happ, hrest.1, hrest.2.1, hrest.2.2.1, hrest.2.2.2.1,
    hrest.2.2.2.2.1, hrest.2.2.2.2.2.1, hrest.2.2.2.2.2.2.1,
    hrest.2.2.2.2.2.2.2.1, hrest.2.2.2.2.2.2.2.2.1,
    hrest.2.2.2.2.2.2.2.2.2.1, hrest.2.2.2.2.2.2.2.2.2.2,
    storage_side_effect w s dl pc pi v m d v2 c hc htop hside happ⟩

/-- A chunk with a `Storage(u32::MAX - 5, mode 4, RIGHT)` block at index 17,
for the C5 witness (the spec saturating-add example). -/
def chunkC5w : Chunk :=
  fun i => if i = 17 then [Block.storage (2 ^ 32 - 6) 4 DIR_RIGHT] else []

/-- A world holding `chunkC5w` at layer 0, chunk key 0. -/
def worldC5w : WorldRT :=
  { layers := fun li k => if li = 0 ∧ k = 0 then some chunkC5w else none,
    queue := [[]] }

/-- Witness for C5: `Storage(u32::MAX - 5, mode 4)` receiving side-signal 10
saturates to `u32::MAX` and enqueues nothing. -/
theorem c5_storage_side_witness :
    (worldC5w.layers (DIR_UP &&& 0b11111) 0 = some chunkC5w
      ∧ (chunkC5w 17).getLast? = some (Block.storage (2 ^ 32 - 6) 4 DIR_RIGHT)
      ∧ is_side DIR_RIGHT DIR_UP = true ∧ ((4 : Nat) = 8 → (10 : Nat) ≠ 0))
    ∧ (∃ v2, storageApply (2 ^ 32 - 6) 4 10 = some v2
        ∧ v2 = 2 ^ 32 - 1
        ∧ ∃ w', processSignal worldC5w (10, DIR_UP, 0, 17) = some w'
            ∧ w'.queue = worldC5w.queue) := by
  refine ⟨⟨rfl, rfl, rfl, by omega⟩, ?_⟩
  obtain ⟨v2, happ, -, -, -, -, h4, -, -, -, -, -, -, w', hw, hq, -⟩ :=
    c5_storage_side worldC5w 10 DIR_UP 0 17 (2 ^ 32 - 6) 4 DIR_RIGHT chunkC5w
      rfl rfl rfl (by omega)
  exact ⟨v2, happ, by rw [h4 rfl]; simp [Nat.min_def], w', hw, hq⟩

theorem is_side_of_same {a b : Nat} (h : is_same_dir a b = true) :
    is_side a b = false := by
  simp [is_side, h]

/-- A chunk with a `Storage(5, mode 0, LEFT)` block at index 17, for the C6
counterexample. -/
def chunkC6 : Chunk := fun i => if i = 17 then [Block.storage 5 0 DIR_LEFT] else []

/-- A world holding `chunkC6` at layer 0, chunk key 0. -/
def worldC6 : WorldRT :=
  { layers := fun li k => if li = 0 ∧ k = 0 then some chunkC6 else none,
    queue := [[]] }

/-- C6 (counterexample): a signal arriving in-line but in the *reverse*
orientation of a `Storage` block's direction (block `LEFT`, signal `RIGHT`;
`is_side = false`, `is_same_dir = false`) does nothing: the mode stays 0
(the claim says it becomes `min 7 255 = 7`) and nothing is forwarded. -/
theorem c6_reverse_front_ignored :
    is_side DIR_LEFT DIR_RIGHT = false
      ∧ is_same_dir DIR_LEFT DIR_RIGHT = false
      ∧ (chunkC6 17).getLast? = some (Block.storage 5 0 DIR_LEFT)
      ∧ (∃ w', processSignal worldC6 (7, DIR_RIGHT, 0, 17) = some w'
          ∧ w'.queue = worldC6.queue
          ∧ w'.layers 0 0 = some chunkC6)
      ∧ Block.storage 5 0 DIR_LEFT ≠ Block.storage 5 (min 7 255) DIR_LEFT := by
  exact ⟨rfl, rfl, rfl, ⟨_, rfl, rfl, rfl⟩, by decide⟩

/-- C6 (amended): only a *same-orientation* front-signal triggers the
Storage front behaviour — the mode is set to the signal clamped to a byte and
the stored value is forwarded one cell in `dir` (into the next-tick bucket)
when the advance is in bounds, mode set but nothing forwarded when it is not,
and this happens whatever the previous mode was; a *reverse-orientation*
in-line signal is ignored entirely. -/
theorem c6_storage_front (w : WorldRT) (s dl pc pi v m d : Nat) (c : Chunk)
    (hc : w.layers (dl &&& 0b11111) pc = some c)
    (htop : (c pi).getLast? = some (.storage v m d)) :
    (is_same_dir d dl = true →
      (∀ dl2 pc2 pi2, pos_move dl pc pi = some (dl2, pc2, pi2) →
        ∀ b0 qrest, w.queue = b0 :: qrest →
        ∃ w', processSignal w (s, dl, pc, pi) = some w'
          ∧ w'.queue = (b0 ++ [(v, dl2, pc2, pi2)]) :: qrest
          ∧ w'.layers (dl &&& 0b11111) pc
              = some (updF c pi (setTop (c pi) (.storage v (min s 255) d)))
          ∧ ∀ li' k', ¬(li' = dl &&& 0b11111 ∧ k' = pc) →
              w'.layers li' k' = w.layers li' k')
      ∧ (pos_move dl pc pi = none →
        ∃ w', processSignal w (s, dl, pc, pi) = some w'
          ∧ w'.queue = w.queue
          ∧ w'.layers (dl &&& 0b11111) pc
              = some (updF c pi (setTop (c pi) (.storage v (min s 255) d)))
          ∧ ∀ li' k', ¬(li' = dl &&& 0b11111 ∧ k' = pc) →
              w'.layers li' k' = w.layers li' k'))
    ∧ (is_side d dl = false → is_same_dir d dl = false →
        ∃ w', processSignal w (s, dl, pc, pi) = some w'
          ∧ w'.queue = w.queue
          ∧ ∀ li' k', w'.layers li' k' = w.layers li' k') := by
  have hlc : layer_get_mut (w.layers (dl &&& 0b11111)) pc
      = (w.layers (dl &&& 0b11111), c) := layer_get_mut_of_some hc
  refine ⟨fun hsame => ⟨?_, ?_⟩, ?_⟩
  · intro dl2 pc2 pi2 hmv b0 qrest hq
    simp only [processSignal, hlc, htop, is_side_of_same hsame,
      Bool.false_eq_true, if_false, hsame, if_true, hmv, putStack, hq, push0]
    refine ⟨_, rfl, rfl, ?_, ?_⟩
    · simp [updF]
    · intro li' k' hne
      simp only [updF]
      split_ifs with h1 h2 <;> simp_all [updF]
  · intro hmv
    simp only [processSignal, hlc, htop, is_side_of_same hsame,
      Bool.false_eq_true, if_false, hsame, if_true, hmv, putStack]
    refine ⟨_, rfl, rfl, ?_, ?_⟩
    · simp [updF]
    · intro li' k' hne
      simp only [updF]
      split_ifs with h1 h2 <;> simp_all [updF]
  · intro hside hsame
    simp only [processSignal, hlc, htop, hside, hsame, Bool.false_eq_true,
      if_false]
    refine ⟨_, rfl, rfl, ?_⟩
    intro li' k'
    simp only [updF]
    split <;> simp_all

/-- A chunk with a `Storage(42, mode 77, UP)` block at index 17, for the C6
witness (an unrecognized mode still forwards). -/
def chunkC6w : Chunk := fun i => if i = 17 then [Block.storage 42 77 DIR_UP] else []

/-- A world holding `chunkC6w` at layer 0, chunk key 0. -/
def worldC6w : WorldRT :=
  { layers := fun li k => if li = 0 ∧ k = 0 then some chunkC6w else none,
    queue := [[]] }

/-- Witness for C6: a same-orientation front-signal of value 300 into
`Storage(42, 77, UP)` sets the mode to `min 300 255 = 255` and forwards the
stored value 42 to the cell above (index 1), although 77 is not a recognized
mode. -/
theorem c6_storage_front_witness :
    (worldC6w.layers (DIR_UP &&& 0b11111) 0 = some chunkC6w
      ∧ (chunkC6w 17).getLast? = some (Block.storage 42 77 DIR_UP)
      ∧ is_same_dir DIR_UP DIR_UP = true
      ∧ pos_move DIR_UP 0 17 = some (DIR_UP, 0, 1)
      ∧ worldC6w.queue = [[]])
    ∧ (∃ w', processSignal worldC6w (300, DIR_UP, 0, 17) = some w'
        ∧ w'.queue = [[(42, DIR_UP, 0, 1)]]
        ∧ w'.layers (DIR_UP &&& 0b11111) 0
            = some (updF chunkC6w 17
                (setTop (chunkC6w 17) (Block.storage 42 (min 300 255) DIR_UP)))) := by
  refine ⟨⟨rfl, rfl, rfl, rfl, rfl⟩, ?_⟩
  obtain ⟨h1, -⟩ :=
    c6_storage_front worldC6w 300 DIR_UP 0 17 42 77 DIR_UP chunkC6w rfl rfl
  obtain ⟨w', hw, hq, hl, -⟩ := (h1 rfl).1 DIR_UP 0 1 rfl [] [] rfl
  exact ⟨w', hw, hq, hl⟩

/-! ### Claim C7: Move blocks -/

theorem updF_self {α : Type} (f : Nat → α) (i : Nat) : updF f i (f i) = f := by
  funext j
  unfold updF
  split <;> simp_all

theorem putStack_layers (w : WorldRT) (li k : Nat) (c : Chunk) (i : Nat)
    (st : List Block) (li' k' : Nat) :
    (putStack w li k c i st).layers li' k'
      = if li' = li ∧ k' = k then some (updF c i st) else w.layers li' k' := by
  simp only [putStack, updF]
  by_cases h1 : li' = li <;> by_cases h2 : k' = k <;> simp_all [updF]

theorem putStack_queue (w : WorldRT) (li k : Nat) (c : Chunk) (i : Nat)
    (st : List Block) : (putStack w li k c i st).queue = w.queue := rfl

/-- A chunk with a `Move(RIGHT)` block at index 17, a `Color` block to its
right (index 18) and an empty stack to its left (index 16). -/
def chunkC7 : Chunk :=
  fun i => if i = 17 then [Block.move DIR_RIGHT]
    else if i = 18 then [Block.color 1] else []

/-- A world holding `chunkC7` at layer 0, chunk key 0. -/
def worldC7 : WorldRT :=
  { layers := fun li k => if li = 0 ∧ k = 0 then some chunkC7 else none,
    queue := [[]] }

/-- C7 (counterexample): for `Move(RIGHT)` receiving side-signal 0, the claim
predicts pop-from-"behind" = `advance(reverse(dir))` (the left cell, empty
here, hence a no-op with all stacks unchanged).  The code does the opposite:
it pops the *right* cell (`advance(dir)`) and pushes onto the *left* cell,
moving `Color 1` from index 18 to index 16. -/
theorem c7_direction_swapped :
    is_side DIR_RIGHT DIR_UP = true
      ∧ chunkC7 16 = []
      ∧ chunkC7 18 = [Block.color 1]
      ∧ (∃ w', processSignal worldC7 (0, DIR_UP, 0, 17) = some w'
          ∧ (∃ c', w'.layers 0 0 = some c'
              ∧ c' 16 = [Block.color 1] ∧ c' 18 = [] ∧ c' 17 = chunkC7 17)
          ∧ w'.queue = worldC7.queue) :=
  ⟨rfl, rfl, rfl, ⟨_, rfl, ⟨_, rfl, rfl, rfl, rfl⟩, rfl⟩⟩

/-- C7 (amended): `Move(dir)` ignores front-signals.  On a side-signal the
code pops the top of the stack at `advance(dir)` and pushes it onto the stack
at `advance(reverse(dir))` when the signal is 0, and the converse for a
non-zero signal — the opposite assignment of "front"/"behind" to the two
cells from the claim's.  The operation leaves every stack unchanged when
either advance fails or the source stack is empty.  Stated with the popped
cell `a` and the pushed cell `b` as the code computes them
(`a = advance(dir)`, `b = advance(reverse(dir))` for signal 0, swapped
otherwise), for target chunks already present, in both the same-chunk and
distinct-chunk configurations. -/
theorem c7_move (w : WorldRT) (s dl pc pi d : Nat) (c : Chunk)
    (hc : w.layers (dl &&& 0b11111) pc = some c)
    (htop : (c pi).getLast? = some (.move d)) :
    (is_side d dl = false →
      ∃ w', processSignal w (s, dl, pc, pi) = some w'
        ∧ w'.queue = w.queue
        ∧ ∀ li' k', w'.layers li' k' = w.layers li' k')
    ∧ (is_side d dl = true →
      ∀ adl apc api bdl bpc bpi,
      pos_move (if s == 0 then d ||| (dl &&& 0b11111)
                else dir_rev d ||| (dl &&& 0b11111)) pc pi
          = some (adl, apc, api) →
      pos_move (if s == 0 then dir_rev d ||| (dl &&& 0b11111)
                else d ||| (dl &&& 0b11111)) pc pi
          = some (bdl, bpc, bpi) →
      ∀ ca, w.layers (adl &&& 0b11111) apc = some ca →
      ((∀ origin, (ca api).getLast? = some origin →
          (adl &&& 0b11111 = bdl &&& 0b11111 ∧ apc = bpc ∧ api ≠ bpi →
            ∃ w', processSignal w (s, dl, pc, pi) = some w'
              ∧ w'.queue = w.queue
              ∧ w'.layers (adl &&& 0b11111) apc
                  = some (updF (updF ca api ((ca api).dropLast)) bpi
                      (ca bpi ++ [origin]))
              ∧ ∀ li' k', ¬(li' = adl &&& 0b11111 ∧ k' = apc) →
                  w'.layers li' k' = w.layers li' k')
          ∧ (∀ cb, w.layers (bdl &&& 0b11111) bpc = some cb →
            ¬(adl &&& 0b11111 = bdl &&& 0b11111 ∧ apc = bpc) →
            ∃ w', processSignal w (s, dl, pc, pi) = some w'
              ∧ w'.queue = w.queue
              ∧ w'.layers (adl &&& 0b11111) apc
                  = some (updF ca api ((ca api).dropLast))
              ∧ w'.layers (bdl &&& 0b11111) bpc
                  = some (updF cb bpi (cb bpi ++ [origin]))
              ∧ ∀ li' k', ¬(li' = adl &&& 0b11111 ∧ k' = apc) →
                  ¬(li' = bdl &&& 0b11111 ∧ k' = bpc) →
                  w'.layers li' k' = w.layers li' k'))
        ∧ ((ca api).getLast? = none →
          ∃ w', processSignal w (s, dl, pc, pi) = some w'
            ∧ w'.queue = w.queue
            ∧ ∀ li' k', w'.layers li' k' = w.layers li' k')))
    ∧ (is_side d dl = true →
      (pos_move (if s == 0 then d ||| (dl &&& 0b11111)
                 else dir_rev d ||| (dl &&& 0b11111)) pc pi = none
        ∨ pos_move (if s == 0 then dir_rev d ||| (dl &&& 0b11111)
                    else d ||| (dl &&& 0b11111)) pc pi = none) →
      ∃ w', processSignal w (s, dl, pc, pi) = some w'
        ∧ w'.queue = w.queue
        ∧ ∀ li' k', w'.layers li' k' = w.layers li' k') := by
  have hlc : layer_get_mut (w.layers (dl &&& 0b11111)) pc
      = (w.layers (dl &&& 0b11111), c) := layer_get_mut_of_some hc
  refine ⟨?_, ?_, ?_⟩
  · intro hside
    simp only [processSignal, hlc, htop, hside, Bool.false_eq_true, if_false]
    refine ⟨_, rfl, rfl, ?_⟩
    intro li' k'
    simp only [updF]
    split <;> simp_all
  · intro hside adl apc api bdl bpc bpi ha hb ca hca
    refine ⟨fun origin horigin => ⟨?_, ?_⟩, ?_⟩
    · rintro ⟨hll, hkk, hii⟩
      have hll' : bdl &&& 0b11111 = adl &&& 0b11111 := hll.symm
      have hkk' : bpc = apc := hkk.symm
      have hii' : bpi ≠ api := Ne.symm hii
      simp only [processSignal, hc, htop, hside, if_true, ha, hb, hll', hkk',
        layer_get_mut, updF_self, hca, horigin, putStack_layers,
        putStack_queue, and_self, if_true, eq_self_iff_true]
      refine ⟨_, rfl, by simp [putStack_queue], ?_, ?_⟩
      · simp [putStack_layers, updF, hii']
      · intro li' k' hne
        simp [putStack_layers, hne]
    · intro cb hcb hne
      have hne' : ¬(bdl &&& 0b11111 = adl &&& 0b11111 ∧ bpc = apc) :=
        fun hh => hne ⟨hh.1.symm, hh.2.symm⟩
      simp only [processSignal, hc, htop, hside, if_true, ha, hb,
        layer_get_mut, updF_self, hca, horigin, putStack_layers,
        putStack_queue, if_neg hne', hcb]
      refine ⟨_, rfl, by simp [putStack_queue], ?_, ?_, ?_⟩
      · simp [putStack_layers, hne', updF]
        intro h1 h2
        exact absurd ⟨h1, h2⟩ hne
      · simp [putStack_layers]
      · intro li' k' hna hnb
        simp [putStack_layers, hna, hnb]
    · intro hempty
      simp only [processSignal, hc, htop, hside, if_true, ha, hb,
        layer_get_mut, updF_self, hca, hempty]
      refine ⟨_, rfl, rfl, fun li' k' => rfl⟩
  · intro hside hnone
    rcases hnone with hna | hnb
    · simp only [processSignal, hlc, htop, hside, if_true, hna]
      refine ⟨_, rfl, rfl, ?_⟩
      intro li' k'
      simp only [updF]
      split <;> simp_all
    · rcases hfirst : pos_move (if s == 0 then d ||| (dl &&& 0b11111)
          else dir_rev d ||| (dl &&& 0b11111)) pc pi with _ | trip
      · simp only [processSignal, hlc, htop, hside, if_true, hfirst]
        refine ⟨_, rfl, rfl, ?_⟩
        intro li' k'
        simp only [updF]
        split <;> simp_all
      · obtain ⟨adl, apc, api⟩ := trip
        simp only [processSignal, hlc, htop, hside, if_true, hfirst, hnb]
        refine ⟨_, rfl, rfl, ?_⟩
        intro li' k'
        simp only [updF]
        split <;> simp_all

/-- Witness for C7: the `worldC7` configuration — `Move(RIGHT)`, side-signal
0, both neighbours in the same chunk — moves `Color 1` from the right cell
(index 18, popped) to the left cell (index 16, pushed). -/
theorem c7_move_witness :
    (worldC7.layers (DIR_UP &&& 0b11111) 0 = some chunkC7
      ∧ (chunkC7 17).getLast? = some (Block.move DIR_RIGHT)
      ∧ is_side DIR_RIGHT DIR_UP = true
      ∧ pos_move (if (0 : Nat) == 0 then DIR_RIGHT ||| (DIR_UP &&& 0b11111)
                  else dir_rev DIR_RIGHT ||| (DIR_UP &&& 0b11111)) 0 17
          = some (DIR_RIGHT, 0, 18)
      ∧ pos_move (if (0 : Nat) == 0 then dir_rev DIR_RIGHT ||| (DIR_UP &&& 0b11111)
                  else DIR_RIGHT ||| (DIR_UP &&& 0b11111)) 0 17
          = some (DIR_LEFT, 0, 16)
      ∧ (chunkC7 18).getLast? = some (Block.color 1)
      ∧ ((18 : Nat) ≠ 16))
    ∧ (∃ w', processSignal worldC7 (0, DIR_UP, 0, 17) = some w'
        ∧ w'.queue = worldC7.queue
        ∧ w'.layers 0 0
            = some (updF (updF chunkC7 18 ((chunkC7 18).dropLast)) 16
                (chunkC7 16 ++ [Block.color 1]))) := by
  refine ⟨⟨rfl, rfl, rfl, rfl, rfl, rfl, by decide⟩, ?_⟩
  obtain ⟨-, h2, -⟩ :=
    c7_move worldC7 0 DIR_UP 0 17 DIR_RIGHT chunkC7 rfl rfl
  obtain ⟨h3, -⟩ := h2 rfl DIR_RIGHT 0 18 DIR_LEFT 0 16 rfl rfl chunkC7 rfl
  obtain ⟨w', hw, hq, hl, -⟩ :=
    (h3 (Block.color 1) rfl).1 ⟨rfl, rfl, by decide⟩
  exact ⟨w', hw, hq, hl⟩

/-! ### Claim C8: tick can panic (Storage mode 8, signal 0) -/

/-- A chunk with a `Storage(5, mode 8, RIGHT)` block at index 17, for C8. -/
def chunkC8 : Chunk := fun i => if i = 17 then [Block.storage 5 8 DIR_RIGHT] else []

/-- A reachable world (queue non-empty, as `Runner::new` guarantees) whose
due bucket holds a side-signal of value 0 aimed at the mode-8 Storage. -/
def worldC8 : WorldRT :=
  { layers := fun li k => if li = 0 ∧ k = 0 then some chunkC8 else none,
    queue := [[(0, DIR_UP, 0, 17)]] }

/-- C8: `Runner::tick` does *not* complete without raising on every
reachable world: delivering a side-signal of value 0 to a `Storage` block in
mode 8 executes `*value %= signal` with `signal == 0`, a Rust
remainder-by-zero panic, modelled as `none`. -/
theorem c8_tick_panics :
    tick worldC8 = none ∧ storageApply 5 8 0 = none := ⟨rfl, rfl⟩

/-! ### Claim C9: Splitter blocks (modelled from the spec) -/

/-- C9 (spec-modelled: the `match` in `Runner::tick` has no `Splitter` arm;
the behaviour is the spec's §4.3 rule).  A front-signal has no effect; a
side-signal emits the incoming value as two signals, one toward
`advance(dir)` and one toward `advance(reverse(dir))`, both appended to the
next-tick bucket, with no block changed. -/
theorem c9_splitter (w : WorldRT) (s dl pc pi d : Nat) (c : Chunk)
    (hc : w.layers (dl &&& 0b11111) pc = some c)
    (htop : (c pi).getLast? = some (.splitter d)) :
    (is_side d dl = false →
      ∃ w', processSignal w (s, dl, pc, pi) = some w'
        ∧ w'.queue = w.queue
        ∧ ∀ li' k', w'.layers li' k' = w.layers li' k')
    ∧ (is_side d dl = true →
      ∀ adl apc api bdl bpc bpi,
      pos_move (d ||| (dl &&& 0b11111)) pc pi = some (adl, apc, api) →
      pos_move (dir_rev d ||| (dl &&& 0b11111)) pc pi = some (bdl, bpc, bpi) →
      ∃ w', processSignal w (s, dl, pc, pi) = some w'
        ∧ w'.queue.getD 0 []
            = w.queue.getD 0 [] ++ [(s, adl, apc, api), (s, bdl, bpc, bpi)]
        ∧ (∀ j, j ≠ 0 → w'.queue.getD j [] = w.queue.getD j [])
        ∧ ∀ li' k', w'.layers li' k' = w.layers li' k') := by
  have hlc : layer_get_mut (w.layers (dl &&& 0b11111)) pc
      = (w.layers (dl &&& 0b11111), c) := layer_get_mut_of_some hc
  refine ⟨?_, ?_⟩
  · intro hside
    simp only [processSignal, hlc, htop, hside, Bool.false_eq_true, if_false]
    refine ⟨_, rfl, rfl, ?_⟩
    intro li' k'
    simp only [updF]
    split <;> simp_all
  · intro hside adl apc api bdl bpc bpi ha hb
    simp only [processSignal, hlc, htop, hside, if_true, ha, hb]
    refine ⟨_, rfl, ?_, ?_, ?_⟩
    · rw [signals_push_getD_self, signals_push_getD_self, List.append_assoc]
      rfl
    · intro j hj
      rw [signals_push_getD_other _ _ _ _ hj, signals_push_getD_other _ _ _ _ hj]
    · intro li' k'
      simp only [updF]
      split <;> simp_all

/-- A chunk with a `Splitter(RIGHT)` block at index 17, for the C9 witness. -/
def chunkC9 : Chunk := fun i => if i = 17 then [Block.splitter DIR_RIGHT] else []

/-- A world holding `chunkC9` at layer 0, chunk key 0. -/
def worldC9 : WorldRT :=
  { layers := fun li k => if li = 0 ∧ k = 0 then some chunkC9 else none,
    queue := [[]] }

/-- Witness for C9: a side-signal of value 7 into `Splitter(RIGHT)` puts
`(7, right neighbour)` and `(7, left neighbour)` into the next-tick
bucket. -/
theorem c9_splitter_witness :
    (worldC9.layers (DIR_UP &&& 0b11111) 0 = some chunkC9
      ∧ (chunkC9 17).getLast? = some (Block.splitter DIR_RIGHT)
      ∧ is_side DIR_RIGHT DIR_UP = true
      ∧ pos_move (DIR_RIGHT ||| (DIR_UP &&& 0b11111)) 0 17
          = some (DIR_RIGHT, 0, 18)
      ∧ pos_move (dir_rev DIR_RIGHT ||| (DIR_UP &&& 0b11111)) 0 17
          = some (DIR_LEFT, 0, 16))
    ∧ (∃ w', processSignal worldC9 (7, DIR_UP, 0, 17) = some w'
        ∧ w'.queue.getD 0 []
            = [(7, DIR_RIGHT, 0, 18), (7, DIR_LEFT, 0, 16)]
        ∧ ∀ li' k', w'.layers li' k' = worldC9.layers li' k') := by
  refine ⟨⟨rfl, rfl, rfl, rfl, rfl⟩, ?_⟩
  obtain ⟨-, h2⟩ :=
    c9_splitter worldC9 7 DIR_UP 0 17 DIR_RIGHT chunkC9 rfl rfl
  obtain ⟨w', hw, hq, -, hl⟩ :=
    h2 rfl DIR_RIGHT 0 18 DIR_LEFT 0 16 rfl rfl
  exact ⟨w', hw, hq, hl⟩

/-! ### Claim C10: chunk materialization as the only effect of a dropped
signal -/

theorem layer_get_mut_fst_isSome (l : LayerRT) (k k' : Nat)
    (h : (l k').isSome) : ((layer_get_mut l k).1 k').isSome := by
  unfold layer_get_mut
  cases hl : l k with
  | some c => exact h
  | none =>
    simp only [updF]
    split
    · simp
    · exact h

theorem layer_get_mut_fst_target (l : LayerRT) (k : Nat) :
    ((layer_get_mut l k).1 k).isSome := by
  unfold layer_get_mut
  cases hl : l k with
  | some c => simp [hl]
  | none => simp [updF]

theorem w1_mono (w : WorldRT) (dl pc li k : Nat)
    (hs : (li = dl &&& 0b11111 ∧ k = pc) ∨ (w.layers li k).isSome) :
    ((updF w.layers (dl &&& 0b11111)
        (layer_get_mut (w.layers (dl &&& 0b11111)) pc).1) li k).isSome := by
  unfold updF
  rcases hs with ⟨h1, h2⟩ | h2
  · subst h1
    subst h2
    simp [layer_get_mut_fst_target]
  · split
    · next heq =>
      subst heq
      exact layer_get_mut_fst_isSome _ _ _ h2
    · exact h2

theorem putStack_isSome (w : WorldRT) (li0 k0 : Nat) (c : Chunk) (i : Nat)
    (st : List Block) (li k : Nat) (hs : (w.layers li k).isSome) :
    ((putStack w li0 k0 c i st).layers li k).isSome := by
  rw [putStack_layers]
  split
  · simp
  · exact hs

theorem updF_get_mut_isSome (f : Nat → LayerRT) (la kk : Nat) (li k : Nat)
    (hs : (f li k).isSome) :
    ((updF f la (layer_get_mut (f la) kk).1) li k).isSome := by
  unfold updF
  split
  · next heq =>
    subst heq
    exact layer_get_mut_fst_isSome _ _ _ hs
  · exact hs

/-- Presence of chunks is monotone through one signal: the signal's own
target chunk is present afterwards, and no chunk is ever removed. -/
theorem processSignal_mono (w : WorldRT) (s dl pc pi : Nat) (w' : WorldRT)
    (h : processSignal w (s, dl, pc, pi) = some w') (li k : Nat)
    (hs : (li = dl &&& 0b11111 ∧ k = pc) ∨ (w.layers li k).isSome) :
    (w'.layers li k).isSome := by
  simp only [processSignal] at h
  split at h
  · injection h with h
    subst h
    exact w1_mono w dl pc li k hs
  · rename_i b heq
    cases b <;> dsimp only at h <;> (repeat' (split at h)) <;>
      first
        | (injection h with h
           subst h
           repeat' (first
             | exact w1_mono w dl pc li k hs
             | apply putStack_isSome
             | apply updF_get_mut_isSome))
        | (cases h)

/-- Presence of chunks is monotone through a whole bucket, and every
processed signal's target chunk is present afterwards. -/
theorem runSignals_mono (l : List Sig) (w w' : WorldRT)
    (h : runSignals w l = some w') (li k : Nat)
    (hs : (∃ sg ∈ l, li = sg.2.1 &&& 0b11111 ∧ k = sg.2.2.1)
        ∨ (w.layers li k).isSome) :
    (w'.layers li k).isSome := by
  induction l generalizing w with
  | nil =>
    rcases hs with ⟨sg, hm, _⟩ | hsome
    · simp at hm
    · simp only [runSignals] at h
      injection h with h
      subst h
      exact hsome
  | cons a l ih =>
    obtain ⟨sa, sdl, spc, spi⟩ := a
    simp only [runSignals] at h
    cases hp : processSignal w (sa, sdl, spc, spi) with
    | none => rw [hp] at h; cases h
    | some w2 =>
      rw [hp] at h
      refine ih w2 h ?_
      rcases hs with ⟨sg, hm, hg⟩ | hsome
      · rcases List.mem_cons.mp hm with rfl | hm2
        · exact Or.inr (processSignal_mono w sa sdl spc spi w2 hp li k (Or.inl hg))
        · exact Or.inl ⟨sg, hm2, hg⟩
      · exact Or.inr (processSignal_mono w sa sdl spc spi w2 hp li k (Or.inr hsome))

/-- C10: delivering a signal materializes the target chunk as a side effect
of the `get_mut` lookup even when the signal is dropped.  (1) If the target
chunk is absent, processing the signal creates it as 256 empty stacks,
changes no other chunk and leaves the queue untouched — the only change a
dropped signal makes.  (2) If the chunk exists but the target stack is
empty, nothing changes at all.  (3) After `tick()`, every (layer, chunk-key)
pair addressed by a signal of the processed bucket is present in that
layer's chunk map. -/
theorem c10_dropped_signal (w : WorldRT) (s dl pc pi : Nat) :
    (w.layers (dl &&& 0b11111) pc = none →
      ∃ w', processSignal w (s, dl, pc, pi) = some w'
        ∧ w'.queue = w.queue
        ∧ w'.layers (dl &&& 0b11111) pc = some emptyChunk
        ∧ (∀ j, (emptyChunk : Chunk) j = [])
        ∧ ∀ li' k', ¬(li' = dl &&& 0b11111 ∧ k' = pc) →
            w'.layers li' k' = w.layers li' k')
    ∧ (∀ c, w.layers (dl &&& 0b11111) pc = some c →
        (c pi).getLast? = none →
      ∃ w', processSignal w (s, dl, pc, pi) = some w'
        ∧ w'.queue = w.queue
        ∧ ∀ li' k', w'.layers li' k' = w.layers li' k')
    ∧ (∀ w', tick w = some w' →
        ∀ sg ∈ (if w.queue.length < 2 then w.queue ++ [[]]
                else w.queue).headD [],
          (w'.layers (sg.2.1 &&& 0b11111) sg.2.2.1).isSome) := by
  refine ⟨?_, ?_, ?_⟩
  · intro hmiss
    have hlc : layer_get_mut (w.layers (dl &&& 0b11111)) pc
        = (updF (w.layers (dl &&& 0b11111)) pc (some emptyChunk), emptyChunk) := by
      unfold layer_get_mut
      rw [hmiss]
    simp only [processSignal, hlc, emptyChunk, List.getLast?_nil]
    refine ⟨_, rfl, rfl, ?_, fun j => trivial, ?_⟩
    · simp [updF, emptyChunk]
    · intro li' k' hne
      simp only [updF]
      split_ifs with h1 h2 <;> simp_all [updF]
  · intro c hcs hempty
    have hlc : layer_get_mut (w.layers (dl &&& 0b11111)) pc
        = (w.layers (dl &&& 0b11111), c) := layer_get_mut_of_some hcs
    simp only [processSignal, hlc, hempty]
    refine ⟨_, rfl, rfl, ?_⟩
    intro li' k'
    simp only [updF]
    split <;> simp_all
  · intro w' ht sg hm
    unfold tick at ht
    rcases hq : (if w.queue.length < 2 then w.queue ++ [[]] else w.queue)
        with _ | ⟨b, rest⟩
    · rw [hq] at ht
      cases ht
    · rw [hq] at ht hm
      exact runSignals_mono b _ w' ht _ _ (Or.inl ⟨sg, hm, rfl, rfl⟩)

/-- An entirely empty world whose due bucket addresses layer 0, chunk 0,
index 9 — the signal is dropped but the chunk is created. -/
def worldC10 : WorldRT :=
  { layers := fun _ _ => none, queue := [[(5, DIR_UP, 0, 9)], []] }

/-- Witness for C10 on `worldC10`. -/
theorem c10_dropped_signal_witness :
    worldC10.layers (DIR_UP &&& 0b11111) 0 = none
    ∧ (∃ w', processSignal worldC10 (5, DIR_UP, 0, 9) = some w'
        ∧ w'.queue = worldC10.queue
        ∧ w'.layers (DIR_UP &&& 0b11111) 0 = some emptyChunk)
    ∧ (∀ w', tick worldC10 = some w' →
        ∀ sg ∈ (if worldC10.queue.length < 2 then worldC10.queue ++ [[]]
                else worldC10.queue).headD [],
          (w'.layers (sg.2.1 &&& 0b11111) sg.2.2.1).isSome) := by
  refine ⟨rfl, ?_, ?_⟩
  · obtain ⟨h1, -, -⟩ := c10_dropped_signal worldC10 5 DIR_UP 0 9
    obtain ⟨w', hw, hq, hl, -, -⟩ := h1 rfl
    exact ⟨w', hw, hq, hl⟩
  · exact (c10_dropped_signal worldC10 5 DIR_UP 0 9).2.2

end Stackmaker
